import Mathlib

/-!
Shallow embedding of the `rust-gamedig` core: the Valve master-server
filter wire encoding (`src/services/valve_master_server/types.rs`) and
the game query dispatcher (`src/games/mod.rs`).

Byte vectors (`Vec<u8>`) are modelled as `List Nat` of byte values;
Rust string slices are modelled as Lean `String`, with `strBytes`
giving their byte content (the source only ever encodes ASCII keys).
`HashMap<Discriminant<Filter>, Filter>` is modelled as an association
list of filters keyed by their variant tag, with `groupInsert`
replacing the entry of equal key in place (as `HashMap::insert` does)
and appending otherwise; iteration order of the map is unspecified in
Rust, the model fixes the insertion order.
-/

namespace Gamedig

/-- Byte content of an ASCII string literal. -/
def strBytes (s : String) : List Nat := s.toList.map Char.toNat

/-- The query filter enum (`Filter<'a>` in the source). -/
inductive Filter where
  | IsSecured (b : Bool)
  | RunsMap (map : String)
  | CanHavePassword (b : Bool)
  | CanBeEmpty (b : Bool)
  | IsEmpty (b : Bool)
  | CanBeFull (b : Bool)
  | RunsAppID (id : Nat)
  | NotAppID (id : Nat)
  | HasTags (tags : List String)
  | MatchName (name : String)
  | MatchVersion (version : String)
  | RestrictUniqueIP (b : Bool)
  | OnAddress (address : String)
  | Whitelisted (b : Bool)
  | SpectatorProxy (b : Bool)
  | IsDedicated (b : Bool)
  | RunsLinux (b : Bool)
  | HasGameDir (dir : String)
  deriving DecidableEq, Repr

/-- The variant tag of a `Filter`, modelling `std::mem::Discriminant<Filter>`. -/
inductive FilterKind where
  | IsSecured
  | RunsMap
  | CanHavePassword
  | CanBeEmpty
  | IsEmpty
  | CanBeFull
  | RunsAppID
  | NotAppID
  | HasTags
  | MatchName
  | MatchVersion
  | RestrictUniqueIP
  | OnAddress
  | Whitelisted
  | SpectatorProxy
  | IsDedicated
  | RunsLinux
  | HasGameDir
  deriving DecidableEq, Repr, Fintype

/-- `std::mem::discriminant(&filter)`. -/
def Filter.kind : Filter → FilterKind
  | .IsSecured _ => .IsSecured
  | .RunsMap _ => .RunsMap
  | .CanHavePassword _ => .CanHavePassword
  | .CanBeEmpty _ => .CanBeEmpty
  | .IsEmpty _ => .IsEmpty
  | .CanBeFull _ => .CanBeFull
  | .RunsAppID _ => .RunsAppID
  | .NotAppID _ => .NotAppID
  | .HasTags _ => .HasTags
  | .MatchName _ => .MatchName
  | .MatchVersion _ => .MatchVersion
  | .RestrictUniqueIP _ => .RestrictUniqueIP
  | .OnAddress _ => .OnAddress
  | .Whitelisted _ => .Whitelisted
  | .SpectatorProxy _ => .SpectatorProxy
  | .IsDedicated _ => .IsDedicated
  | .RunsLinux _ => .RunsLinux
  | .HasGameDir _ => .HasGameDir

/-- `bool_as_char_u8`: booleans encode as ASCII `'1'` / `'0'`. -/
def bool_as_char_u8 (b : Bool) : Nat :=
  match b with
  | true => 49
  | false => 48

/-- The per-tag loop body of the `HasTags` encoding: each tag's bytes
followed by a comma (byte 44). -/
def tagBytes : List String → List Nat
  | [] => []
  | t :: ts => strBytes t ++ [44] ++ tagBytes ts

/-- `Filter::to_bytes`. -/
def Filter.to_bytes : Filter → List Nat
  | .IsSecured secured => strBytes "\\secure\\" ++ [bool_as_char_u8 secured]
  | .RunsMap map => strBytes "\\map\\" ++ strBytes map
  | .CanHavePassword password => strBytes "\\password\\" ++ [bool_as_char_u8 password]
  | .CanBeEmpty empty => strBytes "\\empty\\" ++ [bool_as_char_u8 empty]
  | .CanBeFull full => strBytes "\\full\\" ++ [bool_as_char_u8 full]
  | .RunsAppID id => strBytes "\\appid\\" ++ strBytes (toString id)
  | .HasTags tags =>
      if tags = [] then []
      else (strBytes "\\gametype\\" ++ tagBytes tags).dropLast
  | .NotAppID id => strBytes "\\napp\\" ++ strBytes (toString id)
  | .IsEmpty empty => strBytes "\\noplayers\\" ++ [bool_as_char_u8 empty]
  | .MatchName name => strBytes "\\name_match\\" ++ strBytes name
  | .MatchVersion version => strBytes "\\version_match\\" ++ strBytes version
  | .RestrictUniqueIP unique => strBytes "\\collapse_addr_hash\\" ++ [bool_as_char_u8 unique]
  | .OnAddress address => strBytes "\\gameaddr\\" ++ strBytes address
  | .Whitelisted whitelisted => strBytes "\\white\\" ++ [bool_as_char_u8 whitelisted]
  | .SpectatorProxy condition => strBytes "\\proxy\\" ++ [bool_as_char_u8 condition]
  | .IsDedicated dedicated => strBytes "\\dedicated\\" ++ [bool_as_char_u8 dedicated]
  | .RunsLinux linux => strBytes "\\linux\\" ++ [bool_as_char_u8 linux]
  | .HasGameDir game_dir => strBytes "\\gamedir\\" ++ strBytes game_dir

/-- `HashMap::insert` keyed by the filter's variant tag: replace the entry
with the same key in place, append if the key is absent. -/
def groupInsert : List Filter → Filter → List Filter
  | [], f => [f]
  | x :: xs, f => if x.kind = f.kind then f :: xs else x :: groupInsert xs f

/-- Map lookup by variant tag. -/
def groupFind : List Filter → FilterKind → Option Filter
  | [], _ => none
  | x :: xs, k => if x.kind = k then some x else groupFind xs k

/-- The `for (k, v) in others { map.insert(k, v) }` merge loop. -/
def groupMergeInto (self others : List Filter) : List Filter :=
  others.foldl groupInsert self

/-- Concatenation of the encodings of a group's values
(the `for filter in values { bytes.extend(filter.to_bytes()) }` loop). -/
def concatBytes : List Filter → List Nat
  | [] => []
  | f :: fs => f.to_bytes ++ concatBytes fs

/-- `SearchFilters<'a>`: three kind-keyed groups. Field order follows the
source declaration: `filters`, `nor_filters`, `nand_filters`. -/
structure SearchFilters where
  filters : List Filter
  nor_filters : List Filter
  nand_filters : List Filter
  deriving DecidableEq, Repr

/-- `SearchFilters::new`. -/
def SearchFilters.new : SearchFilters :=
  { filters := [], nor_filters := [], nand_filters := [] }

/-- `SearchFilters::insert`: inserts into the normal group. -/
def SearchFilters.insert (s : SearchFilters) (f : Filter) : SearchFilters :=
  { filters := groupInsert s.filters f
    nand_filters := s.nand_filters
    nor_filters := s.nor_filters }

/-- `SearchFilters::insert_nand`: as written in the source, this updates
the `nor_filters` storage. -/
def SearchFilters.insert_nand (s : SearchFilters) (f : Filter) : SearchFilters :=
  { filters := s.filters
    nand_filters := s.nand_filters
    nor_filters := groupInsert s.nor_filters f }

/-- `SearchFilters::insert_nor`: as written in the source, this updates
the `nand_filters` storage. -/
def SearchFilters.insert_nor (s : SearchFilters) (f : Filter) : SearchFilters :=
  { filters := s.filters
    nand_filters := groupInsert s.nand_filters f
    nor_filters := s.nor_filters }

/-- `SearchFilters::merge_normals`. -/
def SearchFilters.merge_normals (s others : SearchFilters) : SearchFilters :=
  { filters := groupMergeInto s.filters others.filters
    nand_filters := s.nand_filters
    nor_filters := s.nor_filters }

/-- `SearchFilters::merge_nands`. -/
def SearchFilters.merge_nands (s others : SearchFilters) : SearchFilters :=
  { filters := s.filters
    nand_filters := groupMergeInto s.nand_filters others.nand_filters
    nor_filters := s.nor_filters }

/-- `SearchFilters::merge_nors`. -/
def SearchFilters.merge_nors (s others : SearchFilters) : SearchFilters :=
  { filters := s.filters
    nand_filters := s.nand_filters
    nor_filters := groupMergeInto s.nor_filters others.nor_filters }

/-- `SearchFilters::merge_all`: normals, then nors, then nands. -/
def SearchFilters.merge_all (s others : SearchFilters) : SearchFilters :=
  ((s.merge_normals others).merge_nors others).merge_nands others

/-- `SearchFilters::special_filter_to_bytes`. -/
def SearchFilters.special_filter_to_bytes (name : String) (filters : List Filter) : List Nat :=
  if filters = [] then []
  else strBytes name ++ strBytes (toString filters.length) ++ concatBytes filters

/-- `SearchFilters::to_bytes`. -/
def SearchFilters.to_bytes (s : SearchFilters) : List Nat :=
  concatBytes s.filters
    ++ SearchFilters.special_filter_to_bytes "nand" s.nand_filters
    ++ SearchFilters.special_filter_to_bytes "nor" s.nor_filters
    ++ [0]

/-- Rust `HashMap` equality is mapping equality, independent of the
model's insertion order: two groups are equivalent when every kind
looks up to the same value. -/
def groupEqv (a b : List Filter) : Prop :=
  ∀ k : FilterKind, groupFind a k = groupFind b k

instance (a b : List Filter) : Decidable (groupEqv a b) :=
  inferInstanceAs (Decidable (∀ _ : FilterKind, _))

/-- `SearchFilters` equality as derived `PartialEq` on three `HashMap`s. -/
def SearchFilters.eqv (a b : SearchFilters) : Prop :=
  groupEqv a.filters b.filters
    ∧ groupEqv a.nor_filters b.nor_filters
    ∧ groupEqv a.nand_filters b.nand_filters

instance (a b : SearchFilters) : Decidable (a.eqv b) :=
  inferInstanceAs (Decidable (_ ∧ _ ∧ _))

/-- The ten boolean-payload filter variants. -/
def boolFilters (b : Bool) : List Filter :=
  [.IsSecured b, .CanHavePassword b, .CanBeEmpty b, .IsEmpty b, .CanBeFull b,
   .RestrictUniqueIP b, .Whitelisted b, .SpectatorProxy b, .IsDedicated b, .RunsLinux b]

/-- `seqAt pat xs`: `pat` is an initial segment of `xs`. -/
def seqAt : List Nat → List Nat → Bool
  | [], _ => true
  | _ :: _, [] => false
  | p :: ps, x :: ys => p == x && seqAt ps ys

/-- `containsSeq pat xs`: `pat` occurs contiguously inside `xs`. -/
def containsSeq : List Nat → List Nat → Bool
  | pat, [] => seqAt pat []
  | pat, x :: ys => seqAt pat (x :: ys) || containsSeq pat ys

/-- A group satisfies the per-kind invariant when its variant tags are
pairwise distinct: at most one filter per kind. -/
def groupOk (g : List Filter) : Prop := (g.map Filter.kind).Nodup

/-- All three groups satisfy the per-kind invariant. -/
def SearchFilters.ok (s : SearchFilters) : Prop :=
  groupOk s.filters ∧ groupOk s.nor_filters ∧ groupOk s.nand_filters

/-- States reachable from `SearchFilters::new` by the builder and merge
operations (the merge argument is allowed to be arbitrary, which only
enlarges the reachable set). -/
inductive Reachable : SearchFilters → Prop where
  | new : Reachable SearchFilters.new
  | insert {s} (f : Filter) : Reachable s → Reachable (s.insert f)
  | insert_nand {s} (f : Filter) : Reachable s → Reachable (s.insert_nand f)
  | insert_nor {s} (f : Filter) : Reachable s → Reachable (s.insert_nor f)
  | merge_normals {s} (t : SearchFilters) : Reachable s → Reachable (s.merge_normals t)
  | merge_nands {s} (t : SearchFilters) : Reachable s → Reachable (s.merge_nands t)
  | merge_nors {s} (t : SearchFilters) : Reachable s → Reachable (s.merge_nors t)
  | merge_all {s} (t : SearchFilters) : Reachable s → Reachable (s.merge_all t)

/-! Dispatcher model (`src/games/mod.rs`). Timeout and extra settings
are opaque passthrough values in the source (each branch forwards them
unchanged to the delegated codec), so the model elides them; it records
which codec a call is routed to and with which endpoint arguments. -/

/-- `protocols::minecraft::Server`; the legacy protocol group is an
opaque tag, modelled as a numeric code. -/
inductive Server where
  | Java
  | Bedrock
  | Legacy (group : Nat)
  deriving DecidableEq, Repr

/-- `GameSpyVersion`. -/
inductive GameSpyVersion where
  | One
  | Two
  | Three
  deriving DecidableEq, Repr

/-- `QuakeVersion`. -/
inductive QuakeVersion where
  | One
  | Two
  | Three
  deriving DecidableEq, Repr

/-- `ProprietaryProtocol`. -/
inductive ProprietaryProtocol where
  | TheShip
  | FFOW
  | JC2MP
  deriving DecidableEq, Repr

/-- `Protocol`; the Valve steam app is an opaque identifier. -/
inductive Protocol where
  | Valve (steam_app : Nat)
  | Minecraft (version : Option Server)
  | Gamespy (version : GameSpyVersion)
  | Quake (version : QuakeVersion)
  | PROPRIETARY (protocol : ProprietaryProtocol)
  deriving DecidableEq, Repr

/-- `Game`: name, default port, protocol selector. -/
structure Game where
  name : String
  default_port : Nat
  protocol : Protocol
  deriving DecidableEq, Repr

/-- `std::net::SocketAddr`, with the IP rendered opaquely as a string. -/
structure SocketAddr where
  ip : String
  port : Nat
  deriving DecidableEq, Repr

/-- The delegated codec invocation a dispatch resolves to, with the
arguments the source passes it (proprietary codecs receive the raw
address/port pair instead of the resolved endpoint). -/
inductive CodecCall where
  | valve (addr : SocketAddr) (steam_app : Nat)
  | minecraft_java (addr : SocketAddr)
  | minecraft_bedrock (addr : SocketAddr)
  | minecraft_legacy (group : Nat) (addr : SocketAddr)
  | minecraft_auto (addr : SocketAddr)
  | gamespy (version : GameSpyVersion) (addr : SocketAddr)
  | quake (version : QuakeVersion) (addr : SocketAddr)
  | ship (address : String) (port : Option Nat)
  | ffow (address : String) (port : Option Nat)
  | jc2mp (address : String) (port : Option Nat)
  deriving DecidableEq, Repr

/-- The resolved socket endpoint a codec call carries, when it takes one. -/
def CodecCall.endpoint : CodecCall → Option SocketAddr
  | .valve a _ => some a
  | .minecraft_java a => some a
  | .minecraft_bedrock a => some a
  | .minecraft_legacy _ a => some a
  | .minecraft_auto a => some a
  | .gamespy _ a => some a
  | .quake _ a => some a
  | .ship _ _ => none
  | .ffow _ _ => none
  | .jc2mp _ _ => none

/-- Routed directly to one of the specific Minecraft codecs
(Java / Bedrock / Legacy), as opposed to the auto-detecting one. -/
def CodecCall.is_direct_minecraft : CodecCall → Bool
  | .minecraft_java _ => true
  | .minecraft_bedrock _ => true
  | .minecraft_legacy _ _ => true
  | _ => false

/-- `query_with_timeout_and_extra_settings`: resolves the socket
endpoint from the optional port and the game's default port, then
branches on the protocol selector. -/
def query_with_timeout_and_extra_settings
    (game : Game) (address : String) (port : Option Nat) : CodecCall :=
  let socket_addr : SocketAddr := ⟨address, port.getD game.default_port⟩
  match game.protocol with
  | .Valve steam_app => .valve socket_addr steam_app
  | .Minecraft (some .Java) => .minecraft_java socket_addr
  | .Minecraft (some .Bedrock) => .minecraft_bedrock socket_addr
  | .Minecraft (some (.Legacy group)) => .minecraft_legacy group socket_addr
  | .Minecraft none => .minecraft_auto socket_addr
  | .Gamespy version => .gamespy version socket_addr
  | .Quake version => .quake version socket_addr
  | .PROPRIETARY .TheShip => .ship address port
  | .PROPRIETARY .FFOW => .ffow address port
  | .PROPRIETARY .JC2MP => .jc2mp address port

lemma tagBytes_ne_nil (t : String) (ts : List String) : tagBytes (t :: ts) ≠ [] := by
  simp [tagBytes]

lemma intercalate_comma_cons_cons (x y : List Nat) (ys : List (List Nat)) :
    List.intercalate [44] (x :: y :: ys) = x ++ [44] ++ List.intercalate [44] (y :: ys) := by
  simp [List.intercalate, List.intersperse]

lemma tagBytes_dropLast (t : String) (ts : List String) :
    (tagBytes (t :: ts)).dropLast = List.intercalate [44] ((t :: ts).map strBytes) := by
  induction ts generalizing t with
  | nil =>
      simp [tagBytes, List.intercalate, List.intersperse]
  | cons u us ih =>
      rw [tagBytes,
        List.dropLast_append_of_ne_nil _ (tagBytes_ne_nil u us), ih u]
      simp [List.map_cons, intercalate_comma_cons_cons]

/-- C1: `insert_nand` stores into the `nor_filters` storage (the group
`to_bytes` emits under the literal `nor`), leaving `nand_filters` alone,
and `insert_nor` stores into `nand_filters` (emitted under `nand`): the
two insertion methods write into swapped storage relative to their names,
as the concrete encodings demonstrate. -/
theorem nand_nor_storage_swapped :
    (∀ (s : SearchFilters) (f : Filter),
        (s.insert_nand f).nor_filters = groupInsert s.nor_filters f
          ∧ (s.insert_nand f).nand_filters = s.nand_filters
          ∧ (s.insert_nor f).nand_filters = groupInsert s.nand_filters f
          ∧ (s.insert_nor f).nor_filters = s.nor_filters)
      ∧ (SearchFilters.new.insert_nand (.IsSecured true)).to_bytes
          = strBytes "nor1\\secure\\1" ++ [0]
      ∧ (SearchFilters.new.insert_nor (.IsSecured true)).to_bytes
          = strBytes "nand1\\secure\\1" ++ [0] :=
  ⟨fun _ _ => ⟨rfl, rfl, rfl, rfl⟩, by decide, by decide⟩

/-- C2: `HasTags []` encodes to zero bytes; a non-empty tag list encodes
as the `\gametype\` key followed by the tags joined with commas and no
trailing comma; `HasTags ["a", "b"]` encodes to `\gametype\a,b`. -/
theorem hasTags_comma_join :
    ((Filter.HasTags []).to_bytes = [])
      ∧ (∀ tags : List String, tags ≠ [] →
          (Filter.HasTags tags).to_bytes
            = strBytes "\\gametype\\" ++ List.intercalate [44] (tags.map strBytes))
      ∧ ((Filter.HasTags ["a", "b"]).to_bytes = strBytes "\\gametype\\a,b") := by
  refine ⟨rfl, fun tags h => ?_, by decide⟩
  match tags, h with
  | t :: ts, _ =>
      show (if (t :: ts : List String) = [] then []
          else (strBytes "\\gametype\\" ++ tagBytes (t :: ts)).dropLast) = _
      rw [if_neg (List.cons_ne_nil t ts),
        List.dropLast_append_of_ne_nil _ (tagBytes_ne_nil t ts), tagBytes_dropLast]

/-- Witness for C2's non-empty hypothesis at `tags = ["a", "b"]`. -/
theorem hasTags_comma_join_witness :
    (["a", "b"] : List String) ≠ []
      ∧ (Filter.HasTags ["a", "b"]).to_bytes
          = strBytes "\\gametype\\" ++ List.intercalate [44] ((["a", "b"].map strBytes)) :=
  ⟨by decide, hasTags_comma_join.2.1 ["a", "b"] (by decide)⟩

/-- C3: every boolean-payload filter ends in the ASCII byte `'1'` (0x31)
when the payload is true and `'0'` (0x30) when false, never raw 0x00/0x01. -/
theorem bool_payload_ascii :
    ∀ b : Bool,
      ((boolFilters b).all fun f => f.to_bytes.getLast? == some (bool_as_char_u8 b)) = true
        ∧ bool_as_char_u8 b = (if b then 49 else 48)
        ∧ bool_as_char_u8 b ≠ 0 ∧ bool_as_char_u8 b ≠ 1 := by
  intro b
  cases b <;> exact ⟨by decide, by decide, by decide, by decide⟩

/-- C4: `to_bytes` on the empty `SearchFilters` is exactly `[0x00]`, and
every `to_bytes` output ends with the unconditionally appended single
null byte. -/
theorem to_bytes_null_terminator :
    SearchFilters.to_bytes SearchFilters.new = [0]
      ∧ (∀ s : SearchFilters, s.to_bytes.getLast? = some 0)
      ∧ (∀ s : SearchFilters, s.to_bytes = s.to_bytes.dropLast ++ [0]) := by
  have h : ∀ s : SearchFilters,
      s.to_bytes
        = (concatBytes s.filters
            ++ SearchFilters.special_filter_to_bytes "nand" s.nand_filters
            ++ SearchFilters.special_filter_to_bytes "nor" s.nor_filters) ++ [0] :=
    fun _ => rfl
  refine ⟨by decide, fun s => ?_, fun s => ?_⟩
  · rw [h, List.getLast?_concat]
  · rw [h, List.dropLast_concat]

/-- C7: the regression scenario — merging `{IsSecured(true)}` with
`{CanBeFull(true), IsSecured(false)}` via `merge_all` equals
`{IsSecured(false), CanBeFull(true)}` as kind-keyed mappings, the merge
being right-biased, and the mapping equality being independent of
insertion order. -/
theorem merge_all_regression_eqv :
    SearchFilters.eqv
      ((SearchFilters.new.insert (.IsSecured true)).merge_all
        ((SearchFilters.new.insert (.CanBeFull true)).insert (.IsSecured false)))
      ((SearchFilters.new.insert (.IsSecured false)).insert (.CanBeFull true))
    ∧ SearchFilters.eqv
      ((SearchFilters.new.insert (.IsSecured false)).insert (.CanBeFull true))
      ((SearchFilters.new.insert (.CanBeFull true)).insert (.IsSecured false)) := by
  decide

lemma kind_mem_groupInsert {g : List Filter} {f : Filter} {k : FilterKind}
    (h : k ∈ (groupInsert g f).map Filter.kind) :
    k ∈ g.map Filter.kind ∨ k = f.kind := by
  induction g with
  | nil =>
      simp [groupInsert] at h
      exact Or.inr h
  | cons x xs ih =>
      rw [groupInsert] at h
      split at h
      · simp only [List.map_cons, List.mem_cons] at h ⊢
        rcases h with h | h
        · exact Or.inr h
        · exact Or.inl (Or.inr h)
      · simp only [List.map_cons, List.mem_cons] at h ⊢
        rcases h with h | h
        · exact Or.inl (Or.inl h)
        · rcases ih h with h' | h'
          · exact Or.inl (Or.inr h')
          · exact Or.inr h'

lemma groupOk_groupInsert {g : List Filter} (f : Filter) (h : groupOk g) :
    groupOk (groupInsert g f) := by
  induction g with
  | nil => simp [groupOk, groupInsert]
  | cons x xs ih =>
      rw [groupOk, List.map_cons, List.nodup_cons] at h
      rw [groupOk, groupInsert]
      split
      · rename_i heq
        rw [List.map_cons, List.nodup_cons]
        exact ⟨heq ▸ h.1, h.2⟩
      · rename_i hne
        rw [List.map_cons, List.nodup_cons]
        refine ⟨fun hmem => ?_, ih h.2⟩
        rcases kind_mem_groupInsert hmem with h' | h'
        · exact h.1 h'
        · exact hne h'

lemma groupOk_groupMergeInto {g : List Filter} (o : List Filter) (h : groupOk g) :
    groupOk (groupMergeInto g o) := by
  induction o generalizing g with
  | nil => exact h
  | cons u os ih => exact ih (groupOk_groupInsert u h)

lemma groupFind_groupInsert (g : List Filter) (f : Filter) (k : FilterKind) :
    groupFind (groupInsert g f) k = if k = f.kind then some f else groupFind g k := by
  induction g with
  | nil =>
      simp only [groupInsert, groupFind]
      by_cases h : k = f.kind
      · subst h; simp
      · rw [if_neg (fun hh => h hh.symm), if_neg h]
  | cons x xs ih =>
      rw [groupInsert]
      split
      · rename_i heq
        rw [groupFind]
        by_cases h : k = f.kind
        · subst h; simp
        · rw [if_neg (fun hh => h hh.symm), if_neg h, groupFind,
            if_neg (fun hh => h (hh.symm.trans heq))]
      · rename_i hne
        rw [groupFind, ih, groupFind]
        by_cases h2 : x.kind = k
        · rw [if_pos h2, if_neg (fun hh => hne (h2.trans hh)), if_pos h2]
        · rw [if_neg h2]
          by_cases h : k = f.kind
          · rw [if_pos h, if_pos h]
          · rw [if_neg h, if_neg h, if_neg h2]

/-- C5: `to_bytes` lays out the normal group's encodings, then — exactly
when the respective group is non-empty — the `nand` (resp. `nor`)
literal, the decimal ASCII entry count, and the group's encodings, then
the null terminator; with one nand entry and no nor entries the output
contains `nand1` followed by that entry's encoding and no `nor` literal. -/
theorem to_bytes_group_layout :
    (∀ s : SearchFilters,
        s.to_bytes
          = concatBytes s.filters
              ++ (if s.nand_filters = [] then []
                  else strBytes "nand" ++ strBytes (toString s.nand_filters.length)
                    ++ concatBytes s.nand_filters)
              ++ (if s.nor_filters = [] then []
                  else strBytes "nor" ++ strBytes (toString s.nor_filters.length)
                    ++ concatBytes s.nor_filters)
              ++ [0])
      ∧ containsSeq (strBytes "nand1" ++ (Filter.IsSecured true).to_bytes)
          (SearchFilters.to_bytes
            { filters := [], nor_filters := [], nand_filters := [.IsSecured true] }) = true
      ∧ containsSeq (strBytes "nor")
          (SearchFilters.to_bytes
            { filters := [], nor_filters := [], nand_filters := [.IsSecured true] }) = false :=
  ⟨fun _ => rfl, by decide, by decide⟩

/-- C6: every state reachable from `new` by insertions and merges keeps
at most one filter per kind in each group, and inserting two filters of
the same kind into the same group keeps only the most recent one. -/
theorem per_kind_dedup :
    (∀ s : SearchFilters, Reachable s → s.ok)
      ∧ (∀ (s : SearchFilters) (f g : Filter), f.kind = g.kind →
          groupFind ((s.insert f).insert g).filters g.kind = some g
            ∧ groupFind ((s.insert_nand f).insert_nand g).nor_filters g.kind = some g
            ∧ groupFind ((s.insert_nor f).insert_nor g).nand_filters g.kind = some g) := by
  constructor
  · intro s hs
    induction hs with
    | new => exact ⟨List.nodup_nil, List.nodup_nil, List.nodup_nil⟩
    | insert f _ ih => exact ⟨groupOk_groupInsert f ih.1, ih.2.1, ih.2.2⟩
    | insert_nand f _ ih => exact ⟨ih.1, groupOk_groupInsert f ih.2.1, ih.2.2⟩
    | insert_nor f _ ih => exact ⟨ih.1, ih.2.1, groupOk_groupInsert f ih.2.2⟩
    | merge_normals t _ ih => exact ⟨groupOk_groupMergeInto t.filters ih.1, ih.2.1, ih.2.2⟩
    | merge_nands t _ ih => exact ⟨ih.1, ih.2.1, groupOk_groupMergeInto t.nand_filters ih.2.2⟩
    | merge_nors t _ ih => exact ⟨ih.1, groupOk_groupMergeInto t.nor_filters ih.2.1, ih.2.2⟩
    | merge_all t _ ih =>
        exact ⟨groupOk_groupMergeInto t.filters ih.1,
          groupOk_groupMergeInto t.nor_filters ih.2.1,
          groupOk_groupMergeInto t.nand_filters ih.2.2⟩
  · intro s f g _
    refine ⟨?_, ?_, ?_⟩ <;>
      simp [SearchFilters.insert, SearchFilters.insert_nand, SearchFilters.insert_nor,
        groupFind_groupInsert]

/-- Witness for C6 at a concrete reachable state and a concrete
same-kind double insertion. -/
theorem per_kind_dedup_witness :
    (SearchFilters.new.insert_nand (.RunsLinux true)).ok
      ∧ groupFind ((SearchFilters.new.insert (.IsSecured true)).insert
          (.IsSecured false)).filters (Filter.IsSecured false).kind
          = some (.IsSecured false) :=
  ⟨per_kind_dedup.1 _ (Reachable.insert_nand _ Reachable.new),
    (per_kind_dedup.2 SearchFilters.new (.IsSecured true) (.IsSecured false) rfl).1⟩

/-- C8: the dispatcher's resolved socket endpoint combines the address
with the supplied port when present and `game.default_port` otherwise;
a Valve game with default port 27015 queried with no port resolves to
port 27015. -/
theorem dispatch_port_resolution :
    (∀ (game : Game) (address : String) (port : Option Nat) (e : SocketAddr),
        (query_with_timeout_and_extra_settings game address port).endpoint = some e →
          e = ⟨address, port.getD game.default_port⟩)
      ∧ (∀ (game : Game) (address : String) (e : SocketAddr),
          (query_with_timeout_and_extra_settings game address none).endpoint = some e →
            e.port = game.default_port)
      ∧ (∀ (game : Game) (address : String) (p : Nat) (e : SocketAddr),
          (query_with_timeout_and_extra_settings game address (some p)).endpoint = some e →
            e.port = p)
      ∧ (∀ (name : String) (app : Nat) (address : String),
          query_with_timeout_and_extra_settings ⟨name, 27015, .Valve app⟩ address none
            = .valve ⟨address, 27015⟩ app) := by
  have main : ∀ (game : Game) (address : String) (port : Option Nat) (e : SocketAddr),
      (query_with_timeout_and_extra_settings game address port).endpoint = some e →
        e = ⟨address, port.getD game.default_port⟩ := by
    intro game address port e h
    obtain ⟨n, dp, proto⟩ := game
    rcases proto with app | ver | gv | qv | pp
    · exact (Option.some_inj.mp h).symm
    · rcases ver with _ | sv
      · exact (Option.some_inj.mp h).symm
      · rcases sv with _ | _ | grp <;> exact (Option.some_inj.mp h).symm
    · exact (Option.some_inj.mp h).symm
    · exact (Option.some_inj.mp h).symm
    · rcases pp with _ | _ | _ <;> exact absurd h (by simp [query_with_timeout_and_extra_settings, CodecCall.endpoint])
  refine ⟨main, fun g a e h => ?_, fun g a p e h => ?_, fun n app a => rfl⟩
  · rw [main g a none e h]; rfl
  · rw [main g a (some p) e h]; rfl

/-- Witness for C8's endpoint hypotheses at a concrete Valve game. -/
theorem dispatch_port_resolution_witness :
    (query_with_timeout_and_extra_settings ⟨"tf2", 27015, .Valve 440⟩ "127.0.0.1" none).endpoint
        = some ⟨"127.0.0.1", 27015⟩
      ∧ (⟨"127.0.0.1", 27015⟩ : SocketAddr).port
          = (⟨"tf2", 27015, .Valve 440⟩ : Game).default_port :=
  ⟨rfl, dispatch_port_resolution.2.1 ⟨"tf2", 27015, .Valve 440⟩ "127.0.0.1"
    ⟨"127.0.0.1", 27015⟩ rfl⟩

/-- C9: a game whose protocol is `Minecraft(None)` is dispatched to the
generic auto-detecting Minecraft codec, never directly to the Java,
Bedrock, or Legacy codecs. -/
theorem minecraft_none_auto :
    ∀ (game : Game) (address : String) (port : Option Nat),
      game.protocol = .Minecraft none →
        query_with_timeout_and_extra_settings game address port
            = .minecraft_auto ⟨address, port.getD game.default_port⟩
          ∧ (query_with_timeout_and_extra_settings game address port).is_direct_minecraft
              = false := by
  intro game address port h
  obtain ⟨n, dp, proto⟩ := game
  cases h
  exact ⟨rfl, rfl⟩

/-- Witness for C9's protocol hypothesis at a concrete game. -/
theorem minecraft_none_auto_witness :
    query_with_timeout_and_extra_settings ⟨"mc", 25565, .Minecraft none⟩ "::1" none
        = .minecraft_auto ⟨"::1", 25565⟩
      ∧ (query_with_timeout_and_extra_settings
          ⟨"mc", 25565, .Minecraft none⟩ "::1" none).is_direct_minecraft = false :=
  minecraft_none_auto ⟨"mc", 25565, .Minecraft none⟩ "::1" none rfl

/-- C10: each insertion method writes one storage group and leaves the
other two groups untouched (`insert` never changes the nand or nor
storage, `insert_nand` leaves `filters` and `nand_filters` unchanged,
`insert_nor` leaves `filters` and `nor_filters` unchanged). -/
theorem insert_frame_effects :
    ∀ (s : SearchFilters) (f : Filter),
      ((s.insert f).nand_filters = s.nand_filters
          ∧ (s.insert f).nor_filters = s.nor_filters)
        ∧ ((s.insert_nand f).filters = s.filters
          ∧ (s.insert_nand f).nand_filters = s.nand_filters)
        ∧ ((s.insert_nor f).filters = s.filters
          ∧ (s.insert_nor f).nor_filters = s.nor_filters) :=
  fun _ _ => ⟨⟨rfl, rfl⟩, ⟨rfl, rfl⟩, ⟨rfl, rfl⟩⟩

end Gamedig
